import Mathlib

/-!
Verification development for the expense-processing pipeline
(02_processar_arquivos.py, 03_validar_dados.py, 04_enriquecer_dados.py,
05_agregar_despesas.py).  Python/pandas code is shallowly embedded as
executable Lean functions over lists; pandas NaN cells are modelled as
`none`, monetary float values as exact rationals.
-/

/-! Character and list helpers shared by the embeddings. -/

/-- Lexicographic comparison on character lists (UTF-8 code points), the
order Python's `sorted` uses on file names. -/
def charsLe : List Char → List Char → Bool
  | [], _ => true
  | _ :: _, [] => false
  | a :: as, b :: bs => if a = b then charsLe as bs else decide (a < b)

/-- Split a character list at every occurrence of the separator character. -/
def splitChar (sep : Char) : List Char → List (List Char)
  | [] => [[]]
  | c :: cs =>
      let r := splitChar sep cs
      if c = sep then [] :: r
      else
        match r with
        | [] => [[c]]
        | h :: t => (c :: h) :: t

/-- Whitespace trimming on both ends, as Python's `str.strip()`. -/
def trimChars (cs : List Char) : List Char :=
  ((cs.dropWhile Char.isWhitespace).reverse.dropWhile Char.isWhitespace).reverse

/-- Decimal value of a digit list. -/
def natOfDigits (cs : List Char) : Nat :=
  cs.foldl (fun a c => 10 * a + (c.toNat - '0'.toNat)) 0

/-- Substring containment on character lists (Python's `in` / `re.search`
of a literal). -/
def containsSeq (n : List Char) : List Char → Bool
  | [] => n.isEmpty
  | c :: t => List.isPrefixOf n (c :: t) || containsSeq n t

/-!
Embedding of `_extract_year_quarter_from_name` (02_processar_arquivos.py,
lines 39-52).  The function runs three `re.search` calls in order:
  1. `([1-4])T(\d{4})` (IGNORECASE)            -> (year, quarter)
  2. `(\d{4})[^0-9]{0,3}([1-4])(?:[_\- ]|$)`   -> (year, quarter)
  3. `(\d{6})` with month in [1,12]            -> (year, (month-1)//3+1)
Each scanner below returns the leftmost match, exactly as `re.search`
scans candidate start positions left to right.
-/

/-- Quarter digit class `[1-4]`. -/
def isQuarterDigit (c : Char) : Bool := '1' ≤ c ∧ c ≤ '4'

/-- Match of pattern 1 anchored at the head of the list: a quarter digit,
a `T` or `t` (the search is case-insensitive), then four digits. -/
def p1At : List Char → Option (Nat × Nat)
  | q :: t :: d1 :: d2 :: d3 :: d4 :: _ =>
      if isQuarterDigit q ∧ (t = 'T' ∨ t = 't') ∧
          d1.isDigit ∧ d2.isDigit ∧ d3.isDigit ∧ d4.isDigit then
        some (natOfDigits [d1, d2, d3, d4], q.toNat - '0'.toNat)
      else none
  | _ => none

/-- Leftmost match of pattern 1. -/
def scanP1 : List Char → Option (Nat × Nat)
  | [] => none
  | c :: cs =>
      match p1At (c :: cs) with
      | some yq => some yq
      | none => scanP1 cs

/-- Length of the maximal non-digit run at the head of the list. -/
def leadNonDigit : List Char → Nat
  | [] => 0
  | c :: cs => if c.isDigit then 0 else leadNonDigit cs + 1

/-- Match of pattern 2 anchored at the head: four digits, then
`[^0-9]{0,3}` (greedy, so the quarter digit can only follow the entire
non-digit run, which must have length at most 3), a quarter digit, and a
boundary `[_\- ]` or end of string. -/
def p2At : List Char → Option (Nat × Nat)
  | d1 :: d2 :: d3 :: d4 :: rest =>
      if d1.isDigit ∧ d2.isDigit ∧ d3.isDigit ∧ d4.isDigit then
        let r := leadNonDigit rest
        if r ≤ 3 then
          match rest.drop r with
          | q :: after =>
              if isQuarterDigit q ∧
                  (after = [] ∨ after.head? = some '_' ∨
                    after.head? = some '-' ∨ after.head? = some ' ') then
                some (natOfDigits [d1, d2, d3, d4], q.toNat - '0'.toNat)
              else none
          | [] => none
        else none
      else none
  | _ => none

/-- Leftmost match of pattern 2. -/
def scanP2 : List Char → Option (Nat × Nat)
  | [] => none
  | c :: cs =>
      match p2At (c :: cs) with
      | some yq => some yq
      | none => scanP2 cs

/-- Match of pattern 3 anchored at the head: six consecutive digits,
returned as (first four digits, last two digits) = (year, month). -/
def p3At : List Char → Option (Nat × Nat)
  | a :: b :: c :: d :: e :: f :: _ =>
      if a.isDigit ∧ b.isDigit ∧ c.isDigit ∧ d.isDigit ∧ e.isDigit ∧ f.isDigit then
        some (natOfDigits [a, b, c, d], natOfDigits [e, f])
      else none
  | _ => none

/-- Leftmost match of pattern 3. -/
def scanP3 : List Char → Option (Nat × Nat)
  | [] => none
  | c :: cs =>
      match p3At (c :: cs) with
      | some ym => some ym
      | none => scanP3 cs

/-- Embedding of `_extract_year_quarter_from_name`: the three patterns are
tried in order; a pattern-3 hit whose month is outside [1,12] falls
through to `return None`, not to another search. -/
def extract_year_quarter_from_name (name : String) : Option (Nat × Nat) :=
  match scanP1 name.toList with
  | some yq => some yq
  | none =>
      match scanP2 name.toList with
      | some yq => some yq
      | none =>
          match scanP3 name.toList with
          | some (y, mon) =>
              if 1 ≤ mon ∧ mon ≤ 12 then some (y, (mon - 1) / 3 + 1) else none
          | none => none

/-!
Embedding of `_try_read_table` (02_processar_arquivos.py, lines 55-76)
and of the downstream table heuristics.  A parsed table is a header plus
string rows; `pd.read_csv(..., engine="python")` is abstracted as an
oracle `parse : encoding -> separator -> Option DataFrame` for the file
at hand (the same file is re-read for every combination).
-/

/-- Parsed tabular file: the header names the columns, every data row has
exactly one cell per column. -/
structure DataFrame where
  header : List String
  rows : List (List String)
deriving DecidableEq

/-- Encoding priority list of `_try_read_table`. -/
def encodingsList : List String := ["utf-8", "latin-1", "cp1252"]

/-- Separator priority list of `_try_read_table`. -/
def sepsList : List String := [";", ",", "\t", "|"]

/-- Inner loop of `_try_read_table`: for one encoding, try each separator;
a parse failure or a single-column result falls through to the next
separator. -/
def readLoopSeps (parse : String → String → Option DataFrame) (enc : String) :
    List String → Option DataFrame
  | [] => none
  | s :: t =>
      match parse enc s with
      | some df => if 1 < df.header.length then some df else readLoopSeps parse enc t
      | none => readLoopSeps parse enc t

/-- Outer loop of `_try_read_table`: encodings in priority order, each one
running the full separator loop. -/
def readLoopEncs (parse : String → String → Option DataFrame) :
    List String → Option DataFrame
  | [] => none
  | e :: t =>
      match readLoopSeps parse e sepsList with
      | some df => some df
      | none => readLoopEncs parse t

/-- Embedding of `_try_read_table`: spreadsheet suffixes delegate to
`pd.read_excel` (abstracted as the oracle `excelRead`); every other file
runs the encoding x separator search. -/
def try_read_table (ext : String) (excelRead : Option DataFrame)
    (parse : String → String → Option DataFrame) : Option DataFrame :=
  if ext = ".xls" ∨ ext = ".xlsx" then excelRead
  else readLoopEncs parse encodingsList

/-- All (encoding, separator) combinations in the order the nested loops
visit them. -/
def allPairs : List (String × String) :=
  encodingsList.flatMap (fun e => sepsList.map (fun s => (e, s)))

/-- Modelled from the spec ("accept the first combination that succeeds
AND yields more than one column"): the first (encoding, separator) pair
whose parse succeeds with more than one column, in priority order. -/
def firstAccepted (parse : String → String → Option DataFrame) : Option DataFrame :=
  allPairs.findSome? (fun p =>
    match parse p.1 p.2 with
    | some df => if 1 < df.header.length then some df else none
    | none => none)

/-- Character-level CSV parse standing in for
`pd.read_csv(path, sep=sep, dtype=str, engine="python")` on an in-memory
text: blank lines are skipped, the first remaining line is the header,
short rows are padded with empty cells (pandas fills missing fields with
NaN), and a row longer than the header raises, i.e. yields `none`. -/
def csvParse (sep : Char) (content : String) : Option DataFrame :=
  match (splitChar '\n' content.toList).filter (fun l => ¬ l.isEmpty) with
  | [] => none
  | h :: t =>
      let header := (splitChar sep h).map (fun cs => (⟨cs⟩ : String))
      let cells := t.map (fun l => (splitChar sep l).map (fun cs => (⟨cs⟩ : String)))
      if cells.all (fun r => r.length ≤ header.length) then
        some ⟨header, cells.map (fun r => r ++ List.replicate (header.length - r.length) "")⟩
      else none

/-- Read oracle for the spec's concrete file `"A;B\n1;2\n"`: the content
is plain ASCII, so all three encodings decode it identically and only the
separator matters. -/
def exampleParse (_enc sep : String) : Option DataFrame :=
  match sep.toList with
  | [c] => csvParse c "A;B\n1;2\n"
  | _ => none

/-!
Embedding of `_is_expense_table` (lines 79-92) and
`_normalize_and_extract` (lines 95-139).
-/

/-- Column-name normalization `c.strip().upper()` used throughout 02. -/
def colKeyChars (s : String) : List Char :=
  trimChars (s.toList.map Char.toUpper)

/-- Keyword set of `_is_expense_table`. -/
def expenseKeywords : List String :=
  ["CD_CONTA_CONTABIL", "VL_SALDO_FINAL", "VALOR", "REG_ANS", "DESPESA", "SINISTRO"]

/-- Embedding of `_is_expense_table`: the normalized column names meet the
keyword set, or some column name matches `VAL|VLR|VL_` as a substring.
(The Python code builds a set of names; only membership tests are made,
so a list model is equivalent.) -/
def is_expense_table (df : DataFrame) : Bool :=
  let cols := df.header.map colKeyChars
  cols.any (fun c => expenseKeywords.any (fun k => k.toList = c)) ||
    cols.any (fun c =>
      containsSeq "VAL".toList c || containsSeq "VLR".toList c ||
        containsSeq "VL_".toList c)

/-- Registry-column alias list of `_normalize_and_extract`. -/
def regCandidates : List String := ["REG_ANS", "REGANS", "REGISTROANS", "ANS"]

/-- Value-column alias list of `_normalize_and_extract`. -/
def valCandidates : List String := ["VL_SALDO_FINAL", "VALOR", "VALOR_DESPESA", "VALOR_FINAL", "VLR"]

/-- First alias that resolves against the normalized header, returned as
the index of the matching original column (first match; the Python dict
keyed by the normalized name differs only when two columns normalize
identically, a case no claim touches). -/
def findCol (df : DataFrame) : List String → Option Nat
  | [] => none
  | c :: t =>
      match df.header.findIdx? (fun h => colKeyChars h = c.toList) with
      | some i => some i
      | none => findCol df t

/-- Cell access within a row; `csvParse` guarantees full rows, so the
default is never exercised on its output. -/
def cellAt (row : List String) (i : Nat) : String := row.getD i ""

/-- Value cleaning of `_normalize_and_extract`: keep only digits, comma,
period and minus (`str.replace(r"[^0-9,\.\-]", "")`), then turn commas
into periods. -/
def cleanValChars (s : String) : List Char :=
  (s.toList.filter (fun c => c.isDigit || c = ',' || c = '.' || c = '-')).map
    (fun c => if c = ',' then '.' else c)

/-- Numeric parse of a cleaned value string, the `pd.to_numeric(...,
errors="coerce")` step: an optional minus sign, then digits with at most
one decimal point and at least one digit; anything else coerces to NaN
(`none`).  Floats are modelled as exact rationals. -/
def parseUnsignedNum (cs : List Char) : Option ℚ :=
  match splitChar '.' cs with
  | [ds] =>
      if ¬ ds.isEmpty ∧ ds.all Char.isDigit then some (natOfDigits ds : ℚ) else none
  | [ds, fs] =>
      if (¬ ds.isEmpty ∨ ¬ fs.isEmpty) ∧ ds.all Char.isDigit ∧ fs.all Char.isDigit then
        some ((natOfDigits ds : ℚ) + (natOfDigits fs : ℚ) / ((10 : ℚ) ^ fs.length))
      else none
  | _ => none

/-- Signed numeric parse (see `parseUnsignedNum`). -/
def parseNum (cs : List Char) : Option ℚ :=
  match cs with
  | '-' :: rest => (parseUnsignedNum rest).map Neg.neg
  | _ => parseUnsignedNum cs

/-- Embedding of `_normalize_and_extract`: resolve the registry and value
columns by alias, clean and coerce the value column, drop rows whose
value coerced to NaN, and return `none` when a column is unresolved or no
usable row remains.  Output column order is
RegistroANS, Trimestre, Ano, ValorDespesas. -/
structure Record where
  registroANS : String
  trimestre : String
  ano : String
  valorDespesas : ℚ
deriving DecidableEq

/-- Embedding of `_normalize_and_extract` (see `Record`). -/
def normalize_and_extract (df : DataFrame) (ano trimestre : String) :
    Option (List Record) :=
  match findCol df regCandidates, findCol df valCandidates with
  | some ri, some vi =>
      let recs := df.rows.filterMap (fun row =>
        (parseNum (cleanValChars (cellAt row vi))).map
          (fun v => ⟨cellAt row ri, trimestre, ano, v⟩))
      if recs.isEmpty then none else some recs
  | _, _ => none

/-!
Embedding of `processar_arquivos` (02_processar_arquivos.py, lines
142-207).  File-system effects are made explicit: the consolidated CSV is
an optional list of lines (`none` = the file does not exist), each zip
carries the outcome of its extraction and the read oracles of its
extracted files, and the run maps the prior file state to the final one.
-/

/-- A line of the consolidated CSV: the header row or one data record. -/
inductive OutLine where
  | header : OutLine
  | record : Record → OutLine
deriving DecidableEq

/-- One extracted file: its path (for the `__MACOSX` filter), suffix, and
the two read oracles standing in for `pd.read_excel` / `pd.read_csv`. -/
structure FileEntry where
  pathName : String
  ext : String
  excelRead : Option DataFrame
  parse : String → String → Option DataFrame

/-- One zip archive: its file name, whether `extractall` succeeds, and the
extracted files in `os.walk` order. -/
structure ZipArchive where
  name : String
  extractOk : Bool
  entries : List FileEntry

/-- Platform-metadata filter `"__MACOSX" in str(fpath)`. -/
def isMacosPath (p : String) : Bool := containsSeq "__MACOSX".toList p.toList

/-- Per-file processing inside the walker: skip metadata paths, read the
table, keep it only if the expense heuristic accepts it, then normalize;
any failure yields `none` and the walker moves on. -/
def processEntry (ano trimestre : String) (f : FileEntry) : Option (List Record) :=
  if isMacosPath f.pathName then none
  else
    match try_read_table f.ext f.excelRead f.parse with
    | none => none
    | some df =>
        if is_expense_table df then normalize_and_extract df ano trimestre else none

/-- Year/quarter context of an archive, with the `"N/A"` sentinel when no
pattern matches. -/
def anoTrimestreOf (name : String) : String × String :=
  match extract_year_quarter_from_name name with
  | some (y, q) => (toString y, toString q)
  | none => ("N/A", "N/A")

/-- One incremental `to_csv(..., mode='a', header=primeira_escrita)`
append: the header line is emitted only when the first-write flag is
still set, and the flag is cleared. -/
def appendBlock (st : Option (List OutLine) × Bool) (recs : List Record) :
    Option (List OutLine) × Bool :=
  (some (st.1.getD [] ++ (if st.2 then [OutLine.header] else []) ++
    recs.map OutLine.record), false)

/-- Processing of one zip archive: a failed extraction is skipped; else
every extracted file runs the per-file pipeline and successful results
are appended incrementally. -/
def processZip (st : Option (List OutLine) × Bool) (z : ZipArchive) :
    Option (List OutLine) × Bool :=
  if z.extractOk then
    let yq := anoTrimestreOf z.name
    z.entries.foldl (fun s f =>
      match processEntry yq.1 yq.2 f with
      | some recs => appendBlock s recs
      | none => s) st
  else st

/-- Insertion of a zip into a name-sorted list (stable). -/
def insertByName (z : ZipArchive) : List ZipArchive → List ZipArchive
  | [] => [z]
  | y :: ys => if charsLe z.name.toList y.name.toList then z :: y :: ys
               else y :: insertByName z ys

/-- Name-sorted archive list: `sorted(RAW_DIR.glob("*.zip"))`. -/
def sortZips : List ZipArchive → List ZipArchive
  | [] => []
  | z :: zs => insertByName z (sortZips zs)

/-- Number of header lines in a consolidated file. -/
def countHeader (ls : List OutLine) : Nat :=
  (ls.filter (fun l => l = OutLine.header)).length

/-- Embedding of `processar_arquivos`: with no zip present the function
returns before touching the output, leaving any prior file in place;
otherwise the prior consolidated file is unlinked and the sorted archives
are processed starting from a fresh first-write flag. -/
def processar_arquivos (zips : List ZipArchive) (prior : Option (List OutLine)) :
    Option (List OutLine) :=
  let sortedZ := sortZips zips
  if sortedZ.isEmpty then prior
  else (sortedZ.foldl processZip (none, true)).1

/-!
Embedding of `executar_validacao` (03_validar_dados.py, lines 29-34 and
74-108).  Input rows model the consolidated dataframe after the optional
identity-mapping join: CNPJ and RazaoSocial may be absent (NaN),
ValorDespesas holds the result of `pd.to_numeric(..., errors='coerce')`
(`none` = missing or unparseable).
-/

/-- Python's `str(cell)` on a pandas cell: NaN prints as "nan". -/
def strOfCell : Option String → String
  | none => "nan"
  | some s => s

/-- Embedding of `validar_cnpj`: remove every '.', '/' and '-' and test
that exactly 14 characters remain.  No digit test is made. -/
def validar_cnpj (cnpj : String) : Bool :=
  (cnpj.toList.filter (fun c => c ≠ '.' ∧ c ≠ '/' ∧ c ≠ '-')).length = 14

/-- Modelled from the spec ("normalize by stripping non-digit separators
and require exactly 14 digits"): the value carries exactly 14 digit
characters once separators are removed. -/
def cnpj_valid_spec (s : String) : Bool :=
  (s.toList.filter Char.isDigit).length = 14 ∧ s.toList.all (fun c => c.isDigit ∨ ¬ c.isAlphanum)

/-- Validator input row (post-join consolidated data). -/
structure VRow where
  cnpj : Option String
  razaoSocial : Option String
  trimestre : Option String
  ano : Option String
  valorDespesas : Option ℚ
deriving DecidableEq

/-- Validator output row, column order CNPJ, RazaoSocial, Trimestre, Ano,
ValorDespesas (the CNPJ_Valido flag column is not part of the saved
output). -/
structure VOut where
  cnpj : Option String
  razaoSocial : Option String
  trimestre : Option String
  ano : Option String
  valorDespesas : ℚ
deriving DecidableEq

/-- The dataframe after `df['CNPJ_Valido'] = df['CNPJ'].apply(validar_cnpj)`:
every row is retained and flagged. -/
def validacao_flagged (rows : List VRow) : List (VRow × Bool) :=
  rows.map (fun r => (r, validar_cnpj (strOfCell r.cnpj)))

/-- The dataframe after the hard filter `df[df['ValorDespesas'] > 0]`:
a NaN value compares false and is dropped. -/
def validacao_limpo (rows : List VRow) : List (VRow × Bool) :=
  (validacao_flagged rows).filter (fun p =>
    match p.1.valorDespesas with
    | some v => decide (0 < v)
    | none => false)

/-- Embedding of `executar_validacao`: flag, filter, project the output
columns. -/
def executar_validacao (rows : List VRow) : List VOut :=
  (validacao_limpo rows).map (fun p =>
    ⟨p.1.cnpj, p.1.razaoSocial, p.1.trimestre, p.1.ano, p.1.valorDespesas.getD 0⟩)

/-!
Embedding of `executar_enriquecimento_total` (04_enriquecer_dados.py,
lines 47-124), restricted to its dataframe logic: the download/decode of
the registry snapshot and its column detection are upstream of the join;
`cadastro` models the snapshot with the detected registry column and the
selected CNPJ / RazaoSocial / MODALIDADE / UF columns.
-/

/-- Normalization `str.replace(r'\D', '', regex=True)` applied to the
registry identifier on both sides of the join. -/
def normalizeId (s : String) : String := ⟨s.toList.filter Char.isDigit⟩

/-- Canonical expense record entering the enricher (consolidado). -/
structure Despesa where
  registroANS : String
  trimestre : Option String
  ano : Option String
  valorDespesas : Option ℚ
deriving DecidableEq

/-- Registry snapshot row, after the registry column was detected. -/
structure CadastroRow where
  registro : String
  cnpj : Option String
  razaoSocial : Option String
  modalidade : Option String
  uf : Option String
deriving DecidableEq

/-- Enriched output row, column order CNPJ, RazaoSocial, Trimestre, Ano,
ValorDespesas, RegistroANS, Modalidade, UF. -/
structure Enriched where
  cnpj : Option String
  razaoSocial : Option String
  trimestre : Option String
  ano : Option String
  valorDespesas : Option ℚ
  registroANS : String
  modalidade : Option String
  uf : Option String
deriving DecidableEq

/-- Embedding of the `pd.merge(..., on='RegistroANS', how='left')` step:
every canonical record produces one output row per matching registry row,
or a single row with NaN enrichment fields when nothing matches. -/
def executar_enriquecimento (despesas : List Despesa)
    (cadastro : List CadastroRow) : List Enriched :=
  despesas.flatMap (fun d =>
    let key := normalizeId d.registroANS
    match cadastro.filter (fun c => normalizeId c.registro = key) with
    | [] => [⟨none, none, d.trimestre, d.ano, d.valorDespesas, key, none, none⟩]
    | m :: ms =>
        (m :: ms).map (fun c =>
          ⟨c.cnpj, c.razaoSocial, d.trimestre, d.ano, d.valorDespesas, key,
            c.modalidade, c.uf⟩))

/-!
Embedding of `executar_agregacao` (05_agregar_despesas.py, lines 35-94).
The chunked reader is modelled by an arbitrary partition of the input
rows into chunks; every pandas group-by with `dropna=False` keeps null
keys, hence keys are tuples of `Option String`.
-/

/-- One input row of `dados_validados.csv` as the aggregation sees it:
missing required columns were coerced to null, `ValorDespesas` holds the
`pd.to_numeric(..., errors='coerce')` result. -/
structure RowV where
  razaoSocial : Option String
  uf : Option String
  ano : Option String
  trimestre : Option String
  valorDespesas : Option ℚ
deriving DecidableEq

/-- Group key of the first two group-bys: (RazaoSocial, UF, Ano, Trimestre). -/
abbrev GKey := Option String × Option String × Option String × Option String

/-- Key of a row. -/
def keyOf (r : RowV) : GKey := (r.razaoSocial, r.uf, r.ano, r.trimestre)

/-- Value of a row after `.fillna(0)`. -/
def fillVal (r : RowV) : ℚ := r.valorDespesas.getD 0

/-- Sum of the values attached to one key in a keyed list. -/
def sumKey {κ : Type} [DecidableEq κ] (l : List (κ × ℚ)) (k : κ) : ℚ :=
  ((l.filter (fun p => p.1 = k)).map Prod.snd).sum

/-- Keys of a list in first-occurrence order, without duplicates. -/
def uniqKeys {κ : Type} [DecidableEq κ] : List κ → List κ
  | [] => []
  | k :: t => k :: (uniqKeys t).filter (fun x => x ≠ k)

/-- Group-by-and-sum: one output pair per distinct key, carrying the sum
of that key's values.  (pandas emits groups in sorted key order; the
claims below depend only on the key-to-sum mapping, never on this
order, so first-occurrence order is used.) -/
def groupbySum {κ : Type} [DecidableEq κ] (l : List (κ × ℚ)) : List (κ × ℚ) :=
  (uniqKeys (l.map Prod.fst)).map (fun k => (k, sumKey l k))

/-- Per-chunk period-level aggregation: group one chunk by
(RazaoSocial, UF, Ano, Trimestre) and sum ValorDespesas. -/
def chunkQuarterSum (chunk : List RowV) : List (GKey × ℚ) :=
  groupbySum (chunk.map (fun r => (keyOf r, fillVal r)))

/-- Concatenation of the per-chunk aggregates re-aggregated by the same
key (`pd.concat` + second group-by-sum). -/
def quarterTotals (chunks : List (List RowV)) : List (GKey × ℚ) :=
  groupbySum ((chunks.map chunkQuarterSum).flatten)

/-- Mean of a value list (`'mean'` aggregation). -/
def mediaOf (vs : List ℚ) : ℚ := vs.sum / (vs.length : ℚ)

/-- Squared sample standard deviation (`'std'`, ddof=1): `none` models the
NaN that pandas returns for fewer than two samples.  pandas stores the
square root of this quantity; taking the root changes neither
definedness nor zero-ness, which is all the claims use, and keeps the
model inside the rationals. -/
def sampleVarOf (vs : List ℚ) : Option ℚ :=
  if vs.length ≤ 1 then none
  else some ((vs.map (fun v => (v - mediaOf vs) ^ 2)).sum / ((vs.length - 1 : ℕ) : ℚ))

/-- Final aggregate row, column order RazaoSocial, UF, TotalDespesas,
MediaPorTrimestre, DesvioPadraoPorTrimestre (squared, see
`sampleVarOf`), NumTrimestres. -/
structure StatRow where
  razaoSocial : Option String
  uf : Option String
  totalDespesas : ℚ
  mediaPorTrimestre : ℚ
  desvioPadraoSq : Option ℚ
  numTrimestres : Nat
deriving DecidableEq

/-- Entity-level aggregation: group the period totals by
(RazaoSocial, UF) and compute sum, mean, std and count of the period
values. -/
def statsRows (qs : List (GKey × ℚ)) : List StatRow :=
  let pairs := qs.map (fun p => ((p.1.1, p.1.2.1), p.2))
  (uniqKeys (pairs.map Prod.fst)).map (fun e =>
    let vs := (pairs.filter (fun p => p.1 = e)).map Prod.snd
    ⟨e.1, e.2, vs.sum, mediaOf vs, sampleVarOf vs, vs.length⟩)

/-- Stable insertion into a list sorted ascending by TotalDespesas. -/
def insertStatAsc (x : StatRow) : List StatRow → List StatRow
  | [] => [x]
  | y :: ys => if x.totalDespesas ≤ y.totalDespesas then x :: y :: ys
               else y :: insertStatAsc x ys

/-- Stable ascending sort by TotalDespesas. -/
def sortStatAsc : List StatRow → List StatRow
  | [] => []
  | x :: xs => insertStatAsc x (sortStatAsc xs)

/-- Embedding of `sort_values('TotalDespesas', ascending=False)`: pandas
computes an ascending argsort and reverses it, so the descending order is
the reverse of the stable ascending order. -/
def sortDescByTotal (l : List StatRow) : List StatRow := (sortStatAsc l).reverse

/-- Embedding of `executar_agregacao` on the chunk partition of the input
file. -/
def executar_agregacao (chunks : List (List RowV)) : List StatRow :=
  sortDescByTotal (statsRows (quarterTotals chunks))

/-! Concrete inputs used by the claim-level examples and witnesses. -/

/-- Validator row with ExpenseValue -5. -/
def exVNeg : VRow := ⟨some "11222333000181", some "Op A", some "1", some "2025", some (-5)⟩

/-- Validator row with ExpenseValue 0. -/
def exVZero : VRow := ⟨some "11222333000181", some "Op A", some "1", some "2025", some 0⟩

/-- Validator row with ExpenseValue 0.01. -/
def exVPos : VRow := ⟨some "11222333000181", some "Op A", some "1", some "2025", some (mkRat 1 100)⟩

/-- Validator row with the malformed identifier "123" and a positive value. -/
def exVBadId : VRow := ⟨some "123", some "Op A", some "1", some "2025", some 1⟩

/-- Aggregator rows for the ordering example (totals 300, 100, 200). -/
def exAggA : RowV := ⟨some "A", some "SP", some "2025", some "1", some 300⟩

/-- Second ordering-example row. -/
def exAggB : RowV := ⟨some "B", some "SP", some "2025", some "1", some 100⟩

/-- Third ordering-example row. -/
def exAggC : RowV := ⟨some "C", some "SP", some "2025", some "1", some 200⟩

/-- Two entities with equal totals, in input (and pandas group-key) order
A before B. -/
def exTieA : RowV := ⟨some "A", some "SP", some "2025", some "1", some 5⟩

/-- Tied partner of `exTieA`. -/
def exTieB : RowV := ⟨some "B", some "SP", some "2025", some "1", some 5⟩

/-- A single row whose entity contributes exactly one period. -/
def exSolo : RowV := ⟨some "A", some "SP", some "2025", some "1", none⟩

/-- A row with every grouping key null. -/
def exNullKey : RowV := ⟨none, none, none, none, some 7⟩

/-- A zip archive with no extracted entries. -/
def exZip : ZipArchive := ⟨"a.zip", true, []⟩

/-- A canonical record whose registry id has no match in an empty registry. -/
def exDespesa : Despesa := ⟨"12.3", some "1", some "2025", some 7⟩

/-! Supporting lemmas about the group-by-and-sum machinery. -/

theorem sumKey_cons {κ : Type} [DecidableEq κ] (p : κ × ℚ) (l : List (κ × ℚ)) (k : κ) :
    sumKey (p :: l) k = (if p.1 = k then p.2 else 0) + sumKey l k := by
  by_cases h : p.1 = k <;> simp [sumKey, List.filter_cons, h]

theorem sumKey_append {κ : Type} [DecidableEq κ] (l₁ l₂ : List (κ × ℚ)) (k : κ) :
    sumKey (l₁ ++ l₂) k = sumKey l₁ k + sumKey l₂ k := by
  simp [sumKey, List.filter_append]

theorem sumKey_eq_zero_of_not_mem {κ : Type} [DecidableEq κ] {l : List (κ × ℚ)} {k : κ}
    (h : k ∉ l.map Prod.fst) : sumKey l k = 0 := by
  induction l with
  | nil => simp [sumKey]
  | cons p t ih =>
      simp only [List.map_cons, List.mem_cons, not_or] at h
      rw [sumKey_cons, if_neg (fun hp => h.1 hp.symm), ih h.2, add_zero]

theorem mem_uniqKeys {κ : Type} [DecidableEq κ] {l : List κ} {a : κ} :
    a ∈ uniqKeys l ↔ a ∈ l := by
  induction l with
  | nil => simp [uniqKeys]
  | cons k t ih =>
      by_cases h : a = k <;> simp [uniqKeys, List.mem_filter, ih, h]

theorem nodup_uniqKeys {κ : Type} [DecidableEq κ] (l : List κ) : (uniqKeys l).Nodup := by
  induction l with
  | nil => simp [uniqKeys]
  | cons k t ih =>
      refine List.nodup_cons.mpr ⟨?_, List.Nodup.filter _ ih⟩
      intro hk
      simp [List.mem_filter] at hk

theorem sumKey_keyedMap {κ : Type} [DecidableEq κ] (ks : List κ) (g : κ → ℚ) (k : κ)
    (h : ks.Nodup) :
    sumKey (ks.map (fun x => (x, g x))) k = if k ∈ ks then g k else 0 := by
  induction ks with
  | nil => simp [sumKey]
  | cons a t ih =>
      have hnd := List.nodup_cons.mp h
      rw [List.map_cons, sumKey_cons]
      by_cases hak : a = k
      · subst hak
        have : a ∉ (t.map (fun x => (x, g x))).map Prod.fst := by
          simpa [List.map_map, Function.comp] using hnd.1
        rw [sumKey_eq_zero_of_not_mem this]
        simp
      · rw [if_neg hak, ih hnd.2, zero_add]
        have hka : ¬ k = a := fun hh => hak hh.symm
        by_cases hkt : k ∈ t <;> simp [List.mem_cons, hkt, hka]

theorem fst_groupbySum {κ : Type} [DecidableEq κ] (l : List (κ × ℚ)) :
    (groupbySum l).map Prod.fst = uniqKeys (l.map Prod.fst) := by
  rw [groupbySum, List.map_map]
  have h : (Prod.fst ∘ fun k => (k, sumKey l k)) = id := rfl
  rw [h, List.map_id]

theorem sumKey_groupbySum {κ : Type} [DecidableEq κ] (l : List (κ × ℚ)) (k : κ) :
    sumKey (groupbySum l) k = sumKey l k := by
  rw [groupbySum, sumKey_keyedMap _ _ _ (nodup_uniqKeys _)]
  by_cases h : k ∈ uniqKeys (l.map Prod.fst)
  · simp [h]
  · rw [if_neg h, sumKey_eq_zero_of_not_mem (fun hm => h (mem_uniqKeys.mpr hm))]

theorem sumKey_flatten {κ : Type} [DecidableEq κ] (L : List (List (κ × ℚ))) (k : κ) :
    sumKey L.flatten k = (L.map (fun l => sumKey l k)).sum := by
  induction L with
  | nil => simp [sumKey]
  | cons a t ih => simp [List.flatten_cons, sumKey_append, ih]

theorem sum_map_addFun {κ : Type} (ks : List κ) (f g : κ → ℚ) :
    ((ks.map (fun k => f k + g k)).sum = (ks.map f).sum + (ks.map g).sum) := by
  induction ks with
  | nil => simp
  | cons a t ih => simp [ih]; ring

theorem sum_map_ite_single {κ : Type} [DecidableEq κ] (ks : List κ) (k₀ : κ) (v : ℚ)
    (h : ks.Nodup) :
    ((ks.map (fun k => if k₀ = k then v else 0)).sum = if k₀ ∈ ks then v else 0) := by
  induction ks with
  | nil => simp
  | cons a t ih =>
      have hnd := List.nodup_cons.mp h
      by_cases hk : k₀ = a
      · subst hk
        have : k₀ ∉ t := hnd.1
        simp [ih hnd.2, this]
      · simp [hk, ih hnd.2]

theorem sum_sumKey_over_keys {κ : Type} [DecidableEq κ] (ks : List κ) (l : List (κ × ℚ))
    (hnd : ks.Nodup) (hcov : ∀ p ∈ l, p.1 ∈ ks) :
    ((ks.map (fun k => sumKey l k)).sum = (l.map Prod.snd).sum) := by
  induction l with
  | nil => simp [sumKey]
  | cons p t ih =>
      have h1 : ∀ k, sumKey (p :: t) k = (if p.1 = k then p.2 else 0) + sumKey t k :=
        fun k => sumKey_cons p t k
      calc ((ks.map (fun k => sumKey (p :: t) k)).sum)
          = ((ks.map (fun k => (if p.1 = k then p.2 else 0) + sumKey t k)).sum) := by
            simp only [h1]
        _ = ((ks.map (fun k => if p.1 = k then p.2 else 0)).sum +
              (ks.map (fun k => sumKey t k)).sum) := sum_map_addFun ks _ _
        _ = p.2 + (t.map Prod.snd).sum := by
            rw [sum_map_ite_single ks p.1 p.2 hnd,
              if_pos (hcov p (List.mem_cons_self p t)),
              ih (fun q hq => hcov q (List.mem_cons_of_mem p hq))]
        _ = ((p :: t).map Prod.snd).sum := by simp

theorem snd_sum_groupbySum {κ : Type} [DecidableEq κ] (l : List (κ × ℚ)) :
    ((groupbySum l).map Prod.snd).sum = (l.map Prod.snd).sum := by
  rw [groupbySum, List.map_map]
  have : (Prod.snd ∘ fun k => (k, sumKey l k)) = fun k => sumKey l k := rfl
  rw [this]
  exact sum_sumKey_over_keys _ l (nodup_uniqKeys _)
    (fun p hp => mem_uniqKeys.mpr (List.mem_map_of_mem Prod.fst hp))

/-! Supporting lemmas about the final sort and the walker state machine. -/

theorem mem_insertStatAsc {x y : StatRow} {l : List StatRow} :
    x ∈ insertStatAsc y l ↔ x = y ∨ x ∈ l := by
  induction l with
  | nil => simp [insertStatAsc]
  | cons a t ih =>
      by_cases h : y.totalDespesas ≤ a.totalDespesas
      · simp [insertStatAsc, h, List.mem_cons]
      · simp [insertStatAsc, h, List.mem_cons, ih]
        tauto

theorem mem_sortStatAsc {x : StatRow} {l : List StatRow} :
    x ∈ sortStatAsc l ↔ x ∈ l := by
  induction l with
  | nil => simp [sortStatAsc]
  | cons a t ih => simp [sortStatAsc, mem_insertStatAsc, ih, List.mem_cons]

theorem pairwise_insertStatAsc {x : StatRow} {l : List StatRow}
    (h : l.Pairwise (fun a b => a.totalDespesas ≤ b.totalDespesas)) :
    (insertStatAsc x l).Pairwise (fun a b => a.totalDespesas ≤ b.totalDespesas) := by
  induction l with
  | nil => simp [insertStatAsc]
  | cons a t ih =>
      have hp := List.pairwise_cons.mp h
      by_cases hle : x.totalDespesas ≤ a.totalDespesas
      · rw [insertStatAsc, if_pos hle]
        refine List.pairwise_cons.mpr ⟨?_, h⟩
        intro b hb
        rcases List.mem_cons.mp hb with hb | hb
        · exact hb ▸ hle
        · exact le_trans hle (hp.1 b hb)
      · rw [insertStatAsc, if_neg hle]
        refine List.pairwise_cons.mpr ⟨?_, ih hp.2⟩
        intro b hb
        rcases mem_insertStatAsc.mp hb with hb | hb
        · exact hb ▸ le_of_not_le hle
        · exact hp.1 b hb

theorem pairwise_sortStatAsc (l : List StatRow) :
    (sortStatAsc l).Pairwise (fun a b => a.totalDespesas ≤ b.totalDespesas) := by
  induction l with
  | nil => simp [sortStatAsc]
  | cons a t ih => exact pairwise_insertStatAsc ih

theorem sum_map_insertStatAsc (f : StatRow → ℚ) (x : StatRow) (l : List StatRow) :
    (((insertStatAsc x l).map f).sum = f x + (l.map f).sum) := by
  induction l with
  | nil => simp [insertStatAsc]
  | cons a t ih =>
      by_cases h : x.totalDespesas ≤ a.totalDespesas
      · simp [insertStatAsc, h]
      · simp [insertStatAsc, h, ih]
        ring

theorem sum_map_sortStatAsc (f : StatRow → ℚ) (l : List StatRow) :
    (((sortStatAsc l).map f).sum = (l.map f).sum) := by
  induction l with
  | nil => simp [sortStatAsc]
  | cons a t ih => simp [sortStatAsc, sum_map_insertStatAsc, ih]

theorem foldl_preserves {σ α : Type} (P : σ → Prop) (f : σ → α → σ)
    (h : ∀ s a, P s → P (f s a)) :
    ∀ (l : List α) (s : σ), P s → P (l.foldl f s) := by
  intro l
  induction l with
  | nil => intro s hs; exact hs
  | cons a t ih => intro s hs; exact ih (f s a) (h s a hs)

/-- Header-count bound carried through the walker fold: the number of
header lines written so far plus the pending first-write header is at
most one. -/
def HeaderInv (st : Option (List OutLine) × Bool) : Prop :=
  countHeader (st.1.getD []) + (if st.2 then 1 else 0) ≤ 1

theorem countHeader_append (a b : List OutLine) :
    countHeader (a ++ b) = countHeader a + countHeader b := by
  simp [countHeader, List.filter_append]

theorem countHeader_records (recs : List Record) :
    countHeader (recs.map OutLine.record) = 0 := by
  induction recs with
  | nil => simp [countHeader]
  | cons r t ih => simp [countHeader, List.filter_cons] at ih ⊢

theorem headerInv_appendBlock {st : Option (List OutLine) × Bool} (recs : List Record)
    (h : HeaderInv st) : HeaderInv (appendBlock st recs) := by
  unfold HeaderInv at h ⊢
  unfold appendBlock
  cases hb : st.2 with
  | true =>
      simp only [hb, if_true, if_false, Option.getD_some, countHeader_append,
        countHeader_records]
      simp only [hb, if_true] at h
      simpa [countHeader] using h
  | false =>
      simp only [hb, if_false, Option.getD_some, countHeader_append, countHeader_records]
      simp only [hb, if_false] at h
      simpa [countHeader] using h

theorem headerInv_processZip {st : Option (List OutLine) × Bool} (z : ZipArchive)
    (h : HeaderInv st) : HeaderInv (processZip st z) := by
  unfold processZip
  by_cases hz : z.extractOk
  · simp only [hz, if_true]
    refine foldl_preserves HeaderInv _ ?_ z.entries st h
    intro s f hs
    cases hpe : processEntry (anoTrimestreOf z.name).1 (anoTrimestreOf z.name).2 f with
    | some recs => simpa [hpe] using headerInv_appendBlock recs hs
    | none => simpa [hpe] using hs
  · simpa [hz] using h

theorem length_insertByName (z : ZipArchive) (l : List ZipArchive) :
    (insertByName z l).length = l.length + 1 := by
  induction l with
  | nil => simp [insertByName]
  | cons a t ih =>
      rw [insertByName]
      split
      · simp
      · simp [ih]

theorem length_sortZips (l : List ZipArchive) : (sortZips l).length = l.length := by
  induction l with
  | nil => simp [sortZips]
  | cons a t ih => simp [sortZips, length_insertByName, ih]

/-! Supporting lemmas for the TableReader search and the validator. -/

theorem readLoopSeps_eq (parse : String → String → Option DataFrame) (e : String)
    (ss : List String) :
    readLoopSeps parse e ss = ss.findSome? (fun s =>
      match parse e s with
      | some df => if 1 < df.header.length then some df else none
      | none => none) := by
  induction ss with
  | nil => rfl
  | cons s t ih =>
      rw [readLoopSeps, List.findSome?_cons]
      cases hp : parse e s with
      | none => simpa using ih
      | some df =>
          by_cases h : 1 < df.header.length
          · simp [h]
          · simpa [h] using ih

theorem readLoopEncs_eq (parse : String → String → Option DataFrame)
    (es : List String) :
    readLoopEncs parse es =
      (es.flatMap (fun e => sepsList.map (fun s => (e, s)))).findSome? (fun p =>
        match parse p.1 p.2 with
        | some df => if 1 < df.header.length then some df else none
        | none => none) := by
  induction es with
  | nil => rfl
  | cons e t ih =>
      rw [readLoopEncs, List.flatMap_cons, List.findSome?_append, readLoopSeps_eq,
        List.findSome?_map, ih]
      cases h : List.findSome?
          ((fun p =>
            match parse p.1 p.2 with
            | some df => if 1 < df.header.length then some df else none
            | none => none) ∘ fun s => (e, s)) sepsList with
      | none =>
          have h' : sepsList.findSome? (fun s =>
              match parse e s with
              | some df => if 1 < df.header.length then some df else none
              | none => none) = none := h
          simp [h', Option.or]
      | some df =>
          have h' : sepsList.findSome? (fun s =>
              match parse e s with
              | some df => if 1 < df.header.length then some df else none
              | none => none) = some df := h
          simp [h', Option.or]

theorem mem_validacao_flagged {rows : List VRow} {r : VRow} {fl : Bool} :
    (r, fl) ∈ validacao_flagged rows ↔
      r ∈ rows ∧ fl = validar_cnpj (strOfCell r.cnpj) := by
  unfold validacao_flagged
  rw [List.mem_map]
  constructor
  · rintro ⟨a, ha, heq⟩
    obtain ⟨h1, h2⟩ := Prod.mk.injEq _ _ _ _ ▸ heq
    exact ⟨h1 ▸ ha, (h1 ▸ h2 : _).symm⟩
  · rintro ⟨hr, hfl⟩
    exact ⟨r, hr, by rw [hfl]⟩

theorem mem_validacao_limpo {rows : List VRow} {r : VRow} {fl : Bool} :
    (r, fl) ∈ validacao_limpo rows ↔
      (r ∈ rows ∧ fl = validar_cnpj (strOfCell r.cnpj) ∧
        ∃ v, r.valorDespesas = some v ∧ 0 < v) := by
  unfold validacao_limpo
  rw [List.mem_filter, mem_validacao_flagged]
  cases hv : r.valorDespesas with
  | none => simp [hv]
  | some v => simp [hv, and_assoc]

/-! Claim-level theorems. -/

/-- C1: for every chunk partition of the input, the concatenated and
re-aggregated per-chunk (RazaoSocial, UF, Ano, Trimestre) sums assign to
every group exactly the sum of that group's values over the full dataset,
and hence agree with the naive whole-dataset aggregation, independently
of chunk size and of where chunk boundaries fall. -/
theorem chunked_aggregation_matches_whole_dataset
    (chunks : List (List RowV)) (k : GKey) :
    sumKey (quarterTotals chunks) k =
        sumKey (chunks.flatten.map (fun r => (keyOf r, fillVal r))) k ∧
      sumKey (quarterTotals chunks) k =
        sumKey (groupbySum (chunks.flatten.map (fun r => (keyOf r, fillVal r)))) k := by
  have main : sumKey (quarterTotals chunks) k =
      sumKey (chunks.flatten.map (fun r => (keyOf r, fillVal r))) k := by
    rw [quarterTotals, sumKey_groupbySum, sumKey_flatten, List.map_map,
      List.map_flatten, sumKey_flatten, List.map_map]
    refine congrArg List.sum (List.map_congr_left ?_)
    intro c _
    exact sumKey_groupbySum (c.map (fun r => (keyOf r, fillVal r))) k
  exact ⟨main, by rw [sumKey_groupbySum]; exact main⟩

/-- C3: the extraction tries the three filename patterns in order; the
quarter-year form and the no-digit form behave as documented, but on
"202503_relatorio.zip" pattern 2 spuriously matches the digits "0250"
followed by "3", so the code yields (250, 3) instead of the documented
YYYYMM result (2025, 1). -/
theorem period_extraction_examples :
    extract_year_quarter_from_name "1T2025_despesas.zip" = some (2025, 1) ∧
      extract_year_quarter_from_name "relatorio.zip" = none ∧
      extract_year_quarter_from_name "202503_relatorio.zip" = some (250, 3) ∧
      extract_year_quarter_from_name "202503_relatorio.zip" ≠ some (2025, 1) := by
  refine ⟨by decide, by decide, by decide, by decide⟩

/-- C2: for non-spreadsheet files the reader returns the result of the
first (encoding, separator) pair, in the fixed priority order, whose
parse succeeds with more than one column; it returns "unreadable"
(`none`) exactly when no pair yields a multi-column parse; and on the
file "A;B\n1;2\n" it returns the two-column ';'-split table even though
the ','-parse also succeeds (with a single column). -/
theorem table_reader_first_multicolumn :
    (∀ (ext : String) (xl : Option DataFrame) (parse : String → String → Option DataFrame),
        ¬ (ext = ".xls" ∨ ext = ".xlsx") →
          (try_read_table ext xl parse = firstAccepted parse ∧
            (try_read_table ext xl parse = none ↔
              ∀ p ∈ allPairs, ∀ df : DataFrame, parse p.1 p.2 = some df →
                df.header.length ≤ 1))) ∧
      try_read_table ".txt" none exampleParse = some ⟨["A", "B"], [["1", "2"]]⟩ ∧
      exampleParse "utf-8" "," = some ⟨["A;B"], [["1;2"]]⟩ := by
  refine ⟨?_, by decide, by decide⟩
  intro ext xl parse hext
  have heq : try_read_table ext xl parse = firstAccepted parse := by
    rw [try_read_table, if_neg hext, firstAccepted, allPairs]
    exact readLoopEncs_eq parse encodingsList
  refine ⟨heq, ?_⟩
  rw [heq, firstAccepted, List.findSome?_eq_none_iff]
  constructor
  · intro h p hp df hdf
    have hn := h p hp
    rw [hdf] at hn
    by_contra hlen
    have hn' : (if 1 < df.header.length then some df else none) = none := hn
    rw [if_pos (Nat.not_le.mp hlen)] at hn'
    exact Option.noConfusion hn'
  · intro h p hp
    cases hdf : parse p.1 p.2 with
    | none => simp [hdf]
    | some df =>
        have hle := h p hp df hdf
        simp [hdf, Nat.not_lt.mpr hle]

/-- Witness for C2: the search applied to the concrete ".txt" file. -/
theorem table_reader_first_multicolumn_witness :
    try_read_table ".txt" none exampleParse = firstAccepted exampleParse :=
  (table_reader_first_multicolumn.1 ".txt" none exampleParse (by decide)).1

/-- C4: a row survives validation exactly when its ExpenseValue coerced
to a number strictly greater than zero (missing/unparseable values,
zeros and negatives are dropped); no condition on the identifier or the
entity name is imposed, so such rows are only flagged.  Of the values
-5, 0 and 0.01 only the 0.01 row survives, and a row with identifier
"123" is kept with its validity flag false. -/
theorem validator_hard_filter :
    (∀ (rows : List VRow) (r : VRow) (fl : Bool),
        (r, fl) ∈ validacao_limpo rows ↔
          (r ∈ rows ∧ fl = validar_cnpj (strOfCell r.cnpj) ∧
            ∃ v, r.valorDespesas = some v ∧ 0 < v)) ∧
      executar_validacao [exVNeg, exVZero, exVPos] =
        [⟨some "11222333000181", some "Op A", some "1", some "2025", mkRat 1 100⟩] ∧
      validacao_limpo [exVBadId] = [(exVBadId, false)] :=
  ⟨fun _ _ _ => mem_validacao_limpo, by decide, by decide⟩

/-- C5 counterexample: a value of 14 letters is flagged valid by the
code, although it contains no digits at all, refuting the claim that
the flag requires exactly 14 digits. -/
theorem cnpj_format_claim_counterexample :
    validar_cnpj "AAAAAAAAAAAAAA" = true ∧ cnpj_valid_spec "AAAAAAAAAAAAAA" = false :=
  ⟨by decide, by decide⟩

/-- C5 (amended): the flag is true exactly when the value, after removing
every '.', '/' and '-', has length exactly 14 — digit content is not
checked; the flagging step retains every row. -/
theorem cnpj_length_flagging :
    (∀ rows : List VRow, (validacao_flagged rows).map Prod.fst = rows) ∧
      (∀ (rows : List VRow) (r : VRow) (fl : Bool),
        (r, fl) ∈ validacao_flagged rows ↔ r ∈ rows ∧ fl = validar_cnpj (strOfCell r.cnpj)) ∧
      (∀ s : String, validar_cnpj s = true ↔
        (s.toList.filter (fun c => c ≠ '.' ∧ c ≠ '/' ∧ c ≠ '-')).length = 14) ∧
      validar_cnpj "12.345.678/0001-90" = true ∧ validar_cnpj "123" = false := by
  refine ⟨?_, fun _ _ _ => mem_validacao_flagged, fun s => ?_, by decide, by decide⟩
  · intro rows
    unfold validacao_flagged
    rw [List.map_map]
    have h : (Prod.fst ∘ fun r : VRow => (r, validar_cnpj (strOfCell r.cnpj))) = id := rfl
    rw [h, List.map_id]
  · simp [validar_cnpj]

/-- C6 counterexample: two entities with equal totals, entered (and
group-keyed) in the order A before B, leave the aggregation in the order
B before A — pandas' descending sort reverses the ascending order, so
ties do not keep their original order. -/
theorem aggregation_tie_order_counterexample :
    ((executar_agregacao [[exTieA, exTieB]]).map (fun s => s.totalDespesas) = [5, 5]) ∧
      ((executar_agregacao [[exTieA, exTieB]]).map (fun s => s.razaoSocial) =
        [some "B", some "A"]) ∧
      ((executar_agregacao [[exTieA, exTieB]]).map (fun s => s.razaoSocial) ≠
        [some "A", some "B"]) := by
  have h1 : quarterTotals [[exTieA, exTieB]] =
      [((some "A", some "SP", some "2025", some "1"), 5),
       ((some "B", some "SP", some "2025", some "1"), 5)] := by
    simp [quarterTotals, chunkQuarterSum, groupbySum, uniqKeys, sumKey, keyOf, fillVal,
      exTieA, exTieB]
  have h2 : executar_agregacao [[exTieA, exTieB]] =
      [⟨some "B", some "SP", 5, 5, none, 1⟩, ⟨some "A", some "SP", 5, 5, none, 1⟩] := by
    show sortDescByTotal (statsRows (quarterTotals [[exTieA, exTieB]])) = _
    rw [h1]
    have h3 : statsRows
        [((some "A", some "SP", some "2025", some "1"), 5),
         ((some "B", some "SP", some "2025", some "1"), 5)] =
        [⟨some "A", some "SP", 5, 5, none, 1⟩, ⟨some "B", some "SP", 5, 5, none, 1⟩] := by
      simp [statsRows, uniqKeys, sumKey, mediaOf, sampleVarOf]
    rw [h3]
    norm_num [sortDescByTotal, sortStatAsc, insertStatAsc]
  rw [h2]
  refine ⟨rfl, rfl, by simp⟩

/-- C6 (amended): the output is sorted by TotalDespesas in descending
order; the relative order of rows with equal totals is not the stable
input order (see the counterexample).  For the three entities with
totals 300, 100 and 200 the output order is 300, 200, 100. -/
theorem aggregation_sorted_descending :
    (∀ chunks : List (List RowV),
        (executar_agregacao chunks).Pairwise (fun a b => b.totalDespesas ≤ a.totalDespesas)) ∧
      ((executar_agregacao [[exAggA, exAggB, exAggC]]).map (fun s => s.totalDespesas) =
        [300, 200, 100]) := by
  constructor
  · intro chunks
    show ((sortStatAsc (statsRows (quarterTotals chunks))).reverse).Pairwise _
    rw [List.pairwise_reverse]
    exact pairwise_sortStatAsc _
  · have h1 : quarterTotals [[exAggA, exAggB, exAggC]] =
        [((some "A", some "SP", some "2025", some "1"), 300),
         ((some "B", some "SP", some "2025", some "1"), 100),
         ((some "C", some "SP", some "2025", some "1"), 200)] := by
      simp [quarterTotals, chunkQuarterSum, groupbySum, uniqKeys, sumKey, keyOf, fillVal,
        exAggA, exAggB, exAggC]
    have h2 : statsRows
        [((some "A", some "SP", some "2025", some "1"), 300),
         ((some "B", some "SP", some "2025", some "1"), 100),
         ((some "C", some "SP", some "2025", some "1"), 200)] =
        [⟨some "A", some "SP", 300, 300, none, 1⟩,
         ⟨some "B", some "SP", 100, 100, none, 1⟩,
         ⟨some "C", some "SP", 200, 200, none, 1⟩] := by
      simp [statsRows, uniqKeys, sumKey, mediaOf, sampleVarOf]
    show (sortDescByTotal (statsRows (quarterTotals [[exAggA, exAggB, exAggC]]))).map
        (fun s => s.totalDespesas) = _
    rw [h1, h2]
    norm_num [sortDescByTotal, sortStatAsc, insertStatAsc]

/-- Every entity-level aggregate row comes from a nonempty group: its
period count is at least one, and its std field is null exactly when the
count is at most one. -/
theorem statsRows_count_var (qs : List (GKey × ℚ)) (s : StatRow) (hs : s ∈ statsRows qs) :
    1 ≤ s.numTrimestres ∧ (s.desvioPadraoSq = none ↔ s.numTrimestres ≤ 1) := by
  simp only [statsRows, List.mem_map] at hs
  obtain ⟨e, he, hse⟩ := hs
  subst hse
  have hvs : ((qs.map (fun p => ((p.1.1, p.1.2.1), p.2))).filter
      (fun p => p.1 = e)).map Prod.snd ≠ [] := by
    obtain ⟨p, hp, hpe⟩ := List.mem_map.mp (mem_uniqKeys.mp he)
    have hmem : p ∈ (qs.map (fun q => ((q.1.1, q.1.2.1), q.2))).filter
        (fun q => q.1 = e) := List.mem_filter.mpr ⟨hp, by simp [hpe]⟩
    exact List.ne_nil_of_mem (List.mem_map_of_mem Prod.snd hmem)
  refine ⟨List.length_pos.mpr hvs, ?_, ?_⟩
  · intro h
    by_contra hgt
    unfold sampleVarOf at h
    rw [if_neg hgt] at h
    exact Option.noConfusion h
  · intro h
    show sampleVarOf _ = none
    unfold sampleVarOf
    rw [if_pos h]

/-- C7: an output group has NumTrimestres equal to one exactly when its
standard-deviation field is null (pandas' NaN for the sample standard
deviation of a single value) — never the number zero and never an
error. -/
theorem single_period_null_stddev (chunks : List (List RowV)) (s : StatRow)
    (hs : s ∈ executar_agregacao chunks) :
    s.numTrimestres = 1 ↔ s.desvioPadraoSq = none := by
  have hs1 : s ∈ statsRows (quarterTotals chunks) :=
    mem_sortStatAsc.mp (List.mem_reverse.mp hs)
  obtain ⟨hpos, hiff⟩ := statsRows_count_var _ s hs1
  constructor
  · intro h1
    exact hiff.mpr (le_of_eq h1)
  · intro h2
    exact Nat.le_antisymm (hiff.mp h2) hpos

/-- Evaluation of the aggregation on a one-row, one-period input. -/
theorem agg_exSolo_eval :
    executar_agregacao [[exSolo]] = [⟨some "A", some "SP", 0, 0, none, 1⟩] := by
  have h1 : quarterTotals [[exSolo]] =
      [((some "A", some "SP", some "2025", some "1"), 0)] := by
    simp [quarterTotals, chunkQuarterSum, groupbySum, uniqKeys, sumKey, keyOf, fillVal, exSolo]
  show sortDescByTotal (statsRows (quarterTotals [[exSolo]])) = _
  rw [h1]
  simp [statsRows, uniqKeys, sumKey, mediaOf, sampleVarOf, sortDescByTotal, sortStatAsc,
    insertStatAsc]

/-- Witness for C7: the single-period group of a one-row input. -/
theorem single_period_null_stddev_witness :
    (⟨some "A", some "SP", 0, 0, none, 1⟩ : StatRow).numTrimestres = 1 ↔
      (⟨some "A", some "SP", 0, 0, none, 1⟩ : StatRow).desvioPadraoSq = none :=
  single_period_null_stddev [[exSolo]] _
    (by rw [agg_exSolo_eval]; exact List.mem_singleton.mpr rfl)

/-- C8: a second run of the walker over the same archive set maps the
first run's output to itself — with archives present the prior
consolidated file is unlinked and the output rebuilt from scratch in
sorted order, and with no archive the run returns before writing — and
the header line is emitted at most once per run (only on the first
successful append). -/
theorem archive_walker_idempotent :
    (∀ (zips : List ZipArchive) (prior : Option (List OutLine)),
        processar_arquivos zips (processar_arquivos zips prior) =
          processar_arquivos zips prior) ∧
      (∀ (zips : List ZipArchive) (prior : Option (List OutLine)),
        zips ≠ [] → countHeader ((processar_arquivos zips prior).getD []) ≤ 1) := by
  constructor
  · intro zips prior
    unfold processar_arquivos
    by_cases h : (sortZips zips).isEmpty <;> simp [h]
  · intro zips prior hz
    have hlen : sortZips zips ≠ [] := by
      intro hcon
      apply hz
      apply List.length_eq_zero.mp
      rw [← length_sortZips, hcon]
      rfl
    unfold processar_arquivos
    rw [if_neg (fun hc => hlen (List.isEmpty_iff.mp hc))]
    have hinv : HeaderInv ((sortZips zips).foldl processZip (none, true)) :=
      foldl_preserves HeaderInv processZip (fun s z hs => headerInv_processZip z hs)
        (sortZips zips) (none, true) (by simp [HeaderInv, countHeader])
    unfold HeaderInv at hinv
    exact le_trans (Nat.le_add_right _ _) hinv

/-- Witness for C8: the header bound on a concrete one-archive run. -/
theorem archive_walker_idempotent_witness :
    countHeader ((processar_arquivos [exZip] none).getD []) ≤ 1 :=
  archive_walker_idempotent.2 [exZip] none (List.cons_ne_nil _ _)

/-- C9: the left-join keeps every canonical record — each one yields at
least one enriched row carrying its period, year, value and normalized
registry id — and a record whose normalized registry id matches no
registry row appears with all enrichment fields null, never dropped. -/
theorem enricher_left_join_total (despesas : List Despesa) (cadastro : List CadastroRow)
    (d : Despesa) (hd : d ∈ despesas) :
    (∃ e ∈ executar_enriquecimento despesas cadastro,
        e.registroANS = normalizeId d.registroANS ∧ e.trimestre = d.trimestre ∧
          e.ano = d.ano ∧ e.valorDespesas = d.valorDespesas) ∧
      (cadastro.filter (fun c => normalizeId c.registro = normalizeId d.registroANS) = [] →
        (⟨none, none, d.trimestre, d.ano, d.valorDespesas, normalizeId d.registroANS,
          none, none⟩ : Enriched) ∈ executar_enriquecimento despesas cadastro) := by
  constructor
  · cases hf : cadastro.filter (fun c => normalizeId c.registro = normalizeId d.registroANS) with
    | nil =>
        refine ⟨⟨none, none, d.trimestre, d.ano, d.valorDespesas,
          normalizeId d.registroANS, none, none⟩, ?_, rfl, rfl, rfl, rfl⟩
        simp only [executar_enriquecimento, List.mem_flatMap]
        exact ⟨d, hd, by simp [hf]⟩
    | cons m ms =>
        refine ⟨⟨m.cnpj, m.razaoSocial, d.trimestre, d.ano, d.valorDespesas,
          normalizeId d.registroANS, m.modalidade, m.uf⟩, ?_, rfl, rfl, rfl, rfl⟩
        simp only [executar_enriquecimento, List.mem_flatMap]
        refine ⟨d, hd, ?_⟩
        simp only [hf]
        exact List.mem_map_of_mem _ (List.mem_cons_self m ms)
  · intro hf
    simp only [executar_enriquecimento, List.mem_flatMap]
    exact ⟨d, hd, by simp [hf]⟩

/-- Witness for C9: a single record joined against an empty registry. -/
theorem enricher_left_join_total_witness :
    (∃ e ∈ executar_enriquecimento [exDespesa] [],
        e.registroANS = normalizeId exDespesa.registroANS ∧
          e.trimestre = exDespesa.trimestre ∧ e.ano = exDespesa.ano ∧
          e.valorDespesas = exDespesa.valorDespesas) ∧
      (([] : List CadastroRow).filter
          (fun c => normalizeId c.registro = normalizeId exDespesa.registroANS) = [] →
        (⟨none, none, exDespesa.trimestre, exDespesa.ano, exDespesa.valorDespesas,
          normalizeId exDespesa.registroANS, none, none⟩ : Enriched) ∈
          executar_enriquecimento [exDespesa] []) :=
  enricher_left_join_total [exDespesa] [] exDespesa (List.mem_singleton.mpr rfl)

/-- Entity-level totals preserve the grand sum of the period totals. -/
theorem sum_totals_statsRows (qs : List (GKey × ℚ)) :
    ((statsRows qs).map (fun s => s.totalDespesas)).sum = (qs.map Prod.snd).sum := by
  have base : ∀ (P : List ((Option String × Option String) × ℚ)),
      (((uniqKeys (P.map Prod.fst)).map (fun e =>
        (⟨e.1, e.2, ((P.filter (fun p => p.1 = e)).map Prod.snd).sum,
          mediaOf ((P.filter (fun p => p.1 = e)).map Prod.snd),
          sampleVarOf ((P.filter (fun p => p.1 = e)).map Prod.snd),
          ((P.filter (fun p => p.1 = e)).map Prod.snd).length⟩ : StatRow))).map
            (fun s => s.totalDespesas)).sum = (P.map Prod.snd).sum := by
    intro P
    rw [List.map_map]
    have h : ((fun s : StatRow => s.totalDespesas) ∘ (fun e =>
        (⟨e.1, e.2, ((P.filter (fun p => p.1 = e)).map Prod.snd).sum,
          mediaOf ((P.filter (fun p => p.1 = e)).map Prod.snd),
          sampleVarOf ((P.filter (fun p => p.1 = e)).map Prod.snd),
          ((P.filter (fun p => p.1 = e)).map Prod.snd).length⟩ : StatRow))) =
        fun e => sumKey P e := rfl
    rw [h]
    exact sum_sumKey_over_keys _ P (nodup_uniqKeys _)
      (fun p hp => mem_uniqKeys.mpr (List.mem_map_of_mem Prod.fst hp))
  have hq := base (qs.map (fun p => ((p.1.1, p.1.2.1), p.2)))
  have hr : ((qs.map (fun p : GKey × ℚ => ((p.1.1, p.1.2.1), p.2))).map Prod.snd).sum =
      (qs.map Prod.snd).sum := by
    rw [List.map_map]
    rfl
  exact hq.trans hr

/-- The re-aggregated period totals carry exactly the filled input values. -/
theorem sum_snd_quarterTotals (chunks : List (List RowV)) :
    ((quarterTotals chunks).map Prod.snd).sum = (chunks.flatten.map fillVal).sum := by
  rw [quarterTotals, snd_sum_groupbySum, List.map_flatten, List.sum_flatten, List.map_map,
    List.map_flatten, List.sum_flatten, List.map_map, List.map_map]
  refine congrArg List.sum (List.map_congr_left ?_)
  intro c _
  show ((chunkQuarterSum c).map Prod.snd).sum = _
  rw [chunkQuarterSum, snd_sum_groupbySum, List.map_map]
  rfl

/-- C10: no group-by stage discards null-keyed rows — the grand total of
the output equals the sum of every input row's (filled) value, and every
input row's (RazaoSocial, UF) pair, null or not, owns an output group. -/
theorem aggregator_keeps_null_keys :
    (∀ chunks : List (List RowV),
        ((executar_agregacao chunks).map (fun s => s.totalDespesas)).sum =
          (chunks.flatten.map fillVal).sum) ∧
      (∀ (chunks : List (List RowV)) (r : RowV), r ∈ chunks.flatten →
        ∃ s ∈ executar_agregacao chunks, s.razaoSocial = r.razaoSocial ∧ s.uf = r.uf) := by
  constructor
  · intro chunks
    show (((sortStatAsc (statsRows (quarterTotals chunks))).reverse).map _).sum = _
    rw [List.map_reverse, List.sum_reverse, sum_map_sortStatAsc, sum_totals_statsRows,
      sum_snd_quarterTotals]
  · intro chunks r hr
    have hk : keyOf r ∈ (quarterTotals chunks).map Prod.fst := by
      rw [quarterTotals, fst_groupbySum, mem_uniqKeys]
      obtain ⟨c, hc, hrc⟩ := List.mem_flatten.mp hr
      have h1 : keyOf r ∈ (chunkQuarterSum c).map Prod.fst := by
        rw [chunkQuarterSum, fst_groupbySum, mem_uniqKeys, List.map_map]
        exact List.mem_map.mpr ⟨r, hrc, rfl⟩
      obtain ⟨p, hp, hpk⟩ := List.mem_map.mp h1
      exact List.mem_map.mpr ⟨p,
        List.mem_flatten.mpr ⟨chunkQuarterSum c, List.mem_map_of_mem _ hc, hp⟩, hpk⟩
    obtain ⟨q, hq, hqk⟩ := List.mem_map.mp hk
    have he : (r.razaoSocial, r.uf) ∈
        uniqKeys (((quarterTotals chunks).map
          (fun p => ((p.1.1, p.1.2.1), p.2))).map Prod.fst) := by
      rw [mem_uniqKeys, List.map_map]
      refine List.mem_map.mpr ⟨q, hq, ?_⟩
      show (q.1.1, q.1.2.1) = (r.razaoSocial, r.uf)
      rw [hqk]
      rfl
    have hs : ∃ s ∈ statsRows (quarterTotals chunks),
        s.razaoSocial = r.razaoSocial ∧ s.uf = r.uf := by
      simp only [statsRows, List.mem_map]
      exact ⟨_, ⟨(r.razaoSocial, r.uf), he, rfl⟩, rfl, rfl⟩
    obtain ⟨s, hsm, hsr, hsu⟩ := hs
    exact ⟨s, List.mem_reverse.mpr (mem_sortStatAsc.mpr hsm), hsr, hsu⟩

/-- Witness for C10: a row whose four grouping keys are all null. -/
theorem aggregator_keeps_null_keys_witness :
    ∃ s ∈ executar_agregacao [[exNullKey]],
      s.razaoSocial = exNullKey.razaoSocial ∧ s.uf = exNullKey.uf :=
  aggregator_keeps_null_keys.2 [[exNullKey]] exNullKey
    (List.mem_flatten.mpr ⟨[exNullKey], List.mem_singleton.mpr rfl,
      List.mem_singleton.mpr rfl⟩)
